import Mathlib

/-!
Shallow embedding of the bucket engine in src/bucket/Bucket.cpp: the record
model and comparator, the shadow-aware maybePut, the merge protocol version
calculation, the two-way merge loop, fresh-bucket construction, the batch and
point lookup paths, and the byte-budgeted eviction scan.  Ledger keys and
values are modelled as natural numbers; machine integers are naturals with
explicit modular arithmetic where overflow matters.
-/

/-- A ledger entry payload: its ledger key, an abstract value, and whether the
payload is a temporary ledger entry (the classification consulted by
isTemporaryEntry in the eviction scan). -/
structure LedgerEntryM where
  key : Nat
  val : Nat
  temp : Bool
deriving DecidableEq

/-- BucketEntry: the tagged union of entry kinds INITENTRY, LIVEENTRY,
DEADENTRY and METAENTRY.  INIT and LIVE carry a ledger entry, DEAD carries a
ledger key, META carries a protocol version. -/
inductive BucketEntry where
  | initEntry : LedgerEntryM → BucketEntry
  | liveEntry : LedgerEntryM → BucketEntry
  | deadEntry : Nat → BucketEntry
  | metaEntry : Nat → BucketEntry
deriving DecidableEq

def isInit : BucketEntry → Bool
  | .initEntry _ => true
  | _ => false

def isLive : BucketEntry → Bool
  | .liveEntry _ => true
  | _ => false

def isDead : BucketEntry → Bool
  | .deadEntry _ => true
  | _ => false

def isMeta : BucketEntry → Bool
  | .metaEntry _ => true
  | _ => false

/-- The ledger key a non-META entry carries (META has no ledger key; it is
ordered before everything, see entryLt). -/
def entryKey : BucketEntry → Nat
  | .initEntry e => e.key
  | .liveEntry e => e.key
  | .deadEntry k => k
  | .metaEntry _ => 0

/-- The liveEntry() payload access of the XDR union (total in the model;
meaningful only for INIT and LIVE entries). -/
def liveEntryOf : BucketEntry → LedgerEntryM
  | .initEntry e => e
  | .liveEntry e => e
  | .deadEntry k => { key := k, val := 0, temp := false }
  | .metaEntry v => { key := 0, val := v, temp := false }

/-- BucketEntryIdCmp: strict-less comparator projecting to the ledger key;
a METAENTRY is less than any non-META entry. -/
def entryLt (a b : BucketEntry) : Bool :=
  match a, b with
  | .metaEntry _, .metaEntry _ => false
  | .metaEntry _, _ => true
  | _, .metaEntry _ => false
  | _, _ => decide (entryKey a < entryKey b)

/-- Rank function inducing the same strict order as entryLt: META at 0,
a non-META entry at its key plus one. -/
def rank (e : BucketEntry) : Nat :=
  match e with
  | .metaEntry _ => 0
  | _ => entryKey e + 1

theorem entryLt_eq_rank (a b : BucketEntry) : entryLt a b = decide (rank a < rank b) := by
  cases a <;> cases b <;> simp [entryLt, rank, entryKey]

/-- Protocol version from which INITENTRY and METAENTRY are supported.
Modelled from the spec: the constant is declared in Bucket.h (not under src);
the spec names it and identifies it with protocol version 11. -/
def FIRST_PROTOCOL_SUPPORTING_INITENTRY_AND_METAENTRY : Nat := 11

/-- Protocol version from which shadows are removed from merges.
Modelled from the spec: the constant is declared in Bucket.h (not under src);
it is the protocol immediately following the INITENTRY protocol. -/
def FIRST_PROTOCOL_SHADOWS_REMOVED : Nat := 12

/-- First protocol version with soroban support, used as the eviction-scan
cutoff.  Modelled from the spec: the constant is declared outside src. -/
def SOROBAN_PROTOCOL_VERSION : Nat := 20

/-- protocolVersionStartsFrom from ProtocolVersion.h: at-or-after test. -/
def protocolVersionStartsFrom (v first : Nat) : Bool :=
  decide (first ≤ v)

/-- protocolVersionIsBefore from ProtocolVersion.h: strictly-older test. -/
def protocolVersionIsBefore (v first : Nat) : Bool :=
  decide (v < first)

/-- Bucket::checkProtocolLegality: INITENTRY and METAENTRY are illegal in a
bucket whose protocol version is before
FIRST_PROTOCOL_SUPPORTING_INITENTRY_AND_METAENTRY. -/
def checkProtocolLegality (entry : BucketEntry) (protocolVersion : Nat) :
    Except String Unit :=
  if protocolVersionIsBefore protocolVersion
      FIRST_PROTOCOL_SUPPORTING_INITENTRY_AND_METAENTRY
      && (isInit entry || isMeta entry) then
    .error ("unsupported entry type in bucket")
  else
    .ok ()

/-- The advance step of maybePut on one shadow iterator: step the iterator
forward while its current entry is strictly less than the candidate. -/
def shadowAdvance (entry : BucketEntry) (s : List BucketEntry) : List BucketEntry :=
  s.dropWhile (fun x => entryLt x entry)

/-- The shadow-scanning loop of maybePut: advance each shadow iterator in turn;
if an advanced iterator is not exhausted and its current entry is not greater
than the candidate (hence equal-keyed), the candidate is shadowed and the
remaining iterators are left untouched.  Returns whether the candidate is
shadowed together with the resulting iterator states. -/
def maybePutScan (entry : BucketEntry) :
    List (List BucketEntry) → Bool × List (List BucketEntry)
  | [] => (false, [])
  | s :: rest =>
    match shadowAdvance entry s with
    | [] =>
      let r := maybePutScan entry rest
      (r.1, [] :: r.2)
    | x :: xs =>
      if entryLt entry x then
        let r := maybePutScan entry rest
        (r.1, (x :: xs) :: r.2)
      else
        (true, (x :: xs) :: rest)

/-- maybePut: when keepShadowedLifecycleEntries holds and the candidate is an
INIT or DEAD entry, write it unconditionally without touching the shadow
iterators; otherwise scan the shadows and elide the candidate when it is
shadowed.  The first component is the entry handed to the output iterator (none
when elided); the second component is the resulting shadow iterator states. -/
def maybePut (keepShadowedLifecycleEntries : Bool) (entry : BucketEntry)
    (shadowIterators : List (List BucketEntry)) :
    Option BucketEntry × List (List BucketEntry) :=
  if keepShadowedLifecycleEntries && (isInit entry || isDead entry) then
    (some entry, shadowIterators)
  else
    let r := maybePutScan entry shadowIterators
    (if r.1 then none else some entry, r.2)

/-- A single shadow matches the candidate when, after advancing past all keys
strictly below the candidate, it sits on an equal-keyed entry. -/
def shadowMatches (entry : BucketEntry) (s : List BucketEntry) : Bool :=
  match shadowAdvance entry s with
  | [] => false
  | x :: _ => !entryLt entry x

theorem maybePutScan_fst (entry : BucketEntry) (ss : List (List BucketEntry)) :
    (maybePutScan entry ss).1 = ss.any (shadowMatches entry) := by
  induction ss with
  | nil => simp [maybePutScan]
  | cons s rest ih =>
    simp only [maybePutScan, List.any_cons, shadowMatches]
    cases h : shadowAdvance entry s with
    | nil => simpa using ih
    | cons x xs =>
      by_cases hx : entryLt entry x = true
      · simp [hx, ih]
      · simp at hx
        simp [hx]

/-- Claim C2: for every candidate entry passed to maybePut, if
keepShadowedLifecycleEntries is true and the entry is INIT or DEAD it is
written unconditionally; otherwise each shadow iterator is advanced past the
keys strictly below the candidate and the candidate is elided exactly when
some advanced shadow sits on an equal-keyed entry; when no shadow matches, the
entry is written. -/
theorem maybePut_elision_characterization
    (keep : Bool) (entry : BucketEntry) (ss : List (List BucketEntry)) :
    (maybePut keep entry ss).1 =
      (if keep && (isInit entry || isDead entry) then some entry
       else if ss.any (shadowMatches entry) then none
       else some entry) := by
  cases hk : (keep && (isInit entry || isDead entry)) with
  | true => simp [maybePut, hk]
  | false =>
    cases hany : ss.any (shadowMatches entry) with
    | true => simp [maybePut, hk, maybePutScan_fst, hany]
    | false => simp [maybePut, hk, maybePutScan_fst, hany]

/-- Claim C10: when keepShadowedLifecycleEntries is true and the entry is an
INIT or DEAD entry, maybePut writes the entry and returns before reading or
advancing any shadow iterator, leaving every shadow iterator unchanged. -/
theorem maybePut_keep_lifecycle_frame
    (entry : BucketEntry) (ss : List (List BucketEntry))
    (h : (isInit entry || isDead entry) = true) :
    maybePut true entry ss = (some entry, ss) := by
  simp [maybePut, h]

theorem maybePut_keep_lifecycle_frame_witness :
    maybePut true (BucketEntry.deadEntry 3)
        [[BucketEntry.liveEntry { key := 3, val := 9, temp := false }]] =
      (some (BucketEntry.deadEntry 3),
        [[BucketEntry.liveEntry { key := 3, val := 9, temp := false }]]) :=
  maybePut_keep_lifecycle_frame _ _ (by decide)

/-- The protocol version computed inside calculateMergeProtocolVersion: start
from the maximum of the two input versions, then fold in every shadow version
strictly older than FIRST_PROTOCOL_SHADOWS_REMOVED. -/
def mergeProtocolVersionOf (vOld vNew : Nat) (vShadows : List Nat) : Nat :=
  vShadows.foldl
    (fun acc v =>
      if protocolVersionIsBefore v FIRST_PROTOCOL_SHADOWS_REMOVED then
        max v acc
      else acc) (max vOld vNew)

/-- calculateMergeProtocolVersion: the output protocol version is the maximum
of the two input versions and every shadow version strictly older than
FIRST_PROTOCOL_SHADOWS_REMOVED; exceeding maxProtocolVersion is fatal, as is a
non-empty shadow list at-or-after FIRST_PROTOCOL_SHADOWS_REMOVED; the merge
keeps shadowed lifecycle entries iff the version is at-or-after
FIRST_PROTOCOL_SUPPORTING_INITENTRY_AND_METAENTRY. -/
def calculateMergeProtocolVersion (maxProtocolVersion vOld vNew : Nat)
    (vShadows : List Nat) : Except String (Nat × Bool) :=
  if maxProtocolVersion < mergeProtocolVersionOf vOld vNew vShadows then
    .error ("bucket protocol version exceeds maxProtocolVersion")
  else if !protocolVersionIsBefore (mergeProtocolVersionOf vOld vNew vShadows)
        FIRST_PROTOCOL_SHADOWS_REMOVED
      && !vShadows.isEmpty then
    .error ("Shadows are not supported")
  else
    .ok (mergeProtocolVersionOf vOld vNew vShadows,
      !protocolVersionIsBefore (mergeProtocolVersionOf vOld vNew vShadows)
        FIRST_PROTOCOL_SUPPORTING_INITENTRY_AND_METAENTRY)

/-- The specification formulation of the merge protocol version: the maximum
of vOld, vNew and those shadow versions strictly older than
FIRST_PROTOCOL_SHADOWS_REMOVED. -/
def mergeVersionSpec (vOld vNew : Nat) (vShadows : List Nat) : Nat :=
  max (max vOld vNew)
    ((vShadows.filter
        (fun v => protocolVersionIsBefore v FIRST_PROTOCOL_SHADOWS_REMOVED)).foldr max 0)

theorem mergeVersion_foldl_eq (vShadows : List Nat) :
    ∀ acc : Nat,
      vShadows.foldl
        (fun acc v =>
          if protocolVersionIsBefore v FIRST_PROTOCOL_SHADOWS_REMOVED then
            max v acc
          else acc) acc =
      max acc
        ((vShadows.filter
            (fun v => protocolVersionIsBefore v FIRST_PROTOCOL_SHADOWS_REMOVED)).foldr
          max 0) := by
  induction vShadows with
  | nil => intro acc; simp
  | cons v rest ih =>
    intro acc
    simp only [List.foldl_cons, List.filter_cons]
    cases hv : protocolVersionIsBefore v FIRST_PROTOCOL_SHADOWS_REMOVED with
    | true =>
      rw [if_pos rfl, if_pos rfl, List.foldr_cons, ih]
      omega
    | false =>
      rw [if_neg (by simp), if_neg (by simp), ih]

theorem mergeProtocolVersionOf_eq_spec (vOld vNew : Nat) (vShadows : List Nat) :
    mergeProtocolVersionOf vOld vNew vShadows = mergeVersionSpec vOld vNew vShadows :=
  mergeVersion_foldl_eq vShadows (max vOld vNew)

/-- Claim C3: the computed merge protocol version equals the maximum of the two
input versions and the shadow versions strictly older than
FIRST_PROTOCOL_SHADOWS_REMOVED; the merge fails fatally when it exceeds
maxProtocolVersion, and fails fatally when the shadow list is non-empty while
the version is at-or-after FIRST_PROTOCOL_SHADOWS_REMOVED; otherwise it
succeeds and keepShadowedLifecycleEntries holds iff the version is at-or-after
FIRST_PROTOCOL_SUPPORTING_INITENTRY_AND_METAENTRY. -/
theorem calculateMergeProtocolVersion_spec
    (maxPV vOld vNew : Nat) (vShadows : List Nat) :
    calculateMergeProtocolVersion maxPV vOld vNew vShadows =
      (if maxPV < mergeVersionSpec vOld vNew vShadows then
        Except.error ("bucket protocol version exceeds maxProtocolVersion")
      else if FIRST_PROTOCOL_SHADOWS_REMOVED ≤ mergeVersionSpec vOld vNew vShadows
          ∧ vShadows ≠ [] then
        Except.error ("Shadows are not supported")
      else
        Except.ok (mergeVersionSpec vOld vNew vShadows,
          decide (FIRST_PROTOCOL_SUPPORTING_INITENTRY_AND_METAENTRY ≤
            mergeVersionSpec vOld vNew vShadows))) := by
  unfold calculateMergeProtocolVersion
  rw [mergeProtocolVersionOf_eq_spec]
  by_cases h1 : maxPV < mergeVersionSpec vOld vNew vShadows
  · rw [if_pos h1, if_pos h1]
  · rw [if_neg h1, if_neg h1]
    by_cases h2 : FIRST_PROTOCOL_SHADOWS_REMOVED ≤ mergeVersionSpec vOld vNew vShadows
    · by_cases h3 : vShadows = []
      · subst h3
        rw [if_neg (by simp)]
        rw [if_neg (by simp)]
        simp only [protocolVersionIsBefore, Except.ok.injEq, Prod.mk.injEq, true_and]
        have hk : decide (mergeVersionSpec vOld vNew [] <
            FIRST_PROTOCOL_SUPPORTING_INITENTRY_AND_METAENTRY) = false := by
          simp only [decide_eq_false_iff_not]
          simp only [FIRST_PROTOCOL_SHADOWS_REMOVED,
            FIRST_PROTOCOL_SUPPORTING_INITENTRY_AND_METAENTRY] at h2 ⊢
          omega
        rw [hk]
        have hk2 : decide (FIRST_PROTOCOL_SUPPORTING_INITENTRY_AND_METAENTRY ≤
            mergeVersionSpec vOld vNew []) = true := by
          simp only [decide_eq_true_eq]
          simp only [FIRST_PROTOCOL_SHADOWS_REMOVED,
            FIRST_PROTOCOL_SUPPORTING_INITENTRY_AND_METAENTRY] at h2 ⊢
          omega
        rw [hk2]
        rfl
      · have hne : vShadows.isEmpty = false := by
          cases vShadows with
          | nil => exact absurd rfl h3
          | cons a l => rfl
        rw [if_pos, if_pos ⟨h2, h3⟩]
        simp only [protocolVersionIsBefore, hne, Bool.not_false, Bool.and_true,
          Bool.not_eq_true', decide_eq_false_iff_not]
        omega
    · rw [if_neg, if_neg (by intro hc; exact h2 hc.1)]
      · have : (!protocolVersionIsBefore (mergeVersionSpec vOld vNew vShadows)
              FIRST_PROTOCOL_SUPPORTING_INITENTRY_AND_METAENTRY) =
            decide (FIRST_PROTOCOL_SUPPORTING_INITENTRY_AND_METAENTRY ≤
              mergeVersionSpec vOld vNew vShadows) := by
          simp only [protocolVersionIsBefore]
          by_cases hk : FIRST_PROTOCOL_SUPPORTING_INITENTRY_AND_METAENTRY ≤
              mergeVersionSpec vOld vNew vShadows
          · rw [decide_eq_true hk, decide_eq_false (by omega)]
            rfl
          · rw [decide_eq_false hk, decide_eq_true (by omega)]
            rfl
        rw [this]
      · simp only [Bool.and_eq_true, Bool.not_eq_true', decide_eq_false_iff_not,
          protocolVersionIsBefore]
        intro hc
        exact h2 (by omega)

/-- Route one maybePut result into the output record sequence: the written
entry, if any, precedes the output of the rest of the merge. -/
def outEmit (w : Option BucketEntry) (rest : List BucketEntry) : List BucketEntry :=
  match w with
  | none => rest
  | some e => e :: rest

/-- The two-way merge loop of Bucket::merge, combining
mergeCasesWithDefaultAcceptance (a side is exhausted or has the strictly
smaller key: take that side's entry and advance only that side) and
mergeCasesWithEqualKeys (the lifecycle table; advance both sides).  Candidate
entries are routed through maybePut, which threads the shadow iterators.
Produces the sequence of entries handed to the output iterator, or the fatal
error raised. -/
def mergeLoop (protocolVersion : Nat) (keep : Bool) :
    List BucketEntry → List BucketEntry → List (List BucketEntry) →
    Except String (List BucketEntry)
  | [], [], _ => .ok []
  | o :: os, [], ss =>
    match checkProtocolLegality o protocolVersion with
    | .error s => .error s
    | .ok _ =>
      let r := maybePut keep o ss
      (mergeLoop protocolVersion keep os [] r.2).map (outEmit r.1)
  | [], n :: ns, ss =>
    match checkProtocolLegality n protocolVersion with
    | .error s => .error s
    | .ok _ =>
      let r := maybePut keep n ss
      (mergeLoop protocolVersion keep [] ns r.2).map (outEmit r.1)
  | o :: os, n :: ns, ss =>
    if entryLt o n then
      match checkProtocolLegality o protocolVersion with
      | .error s => .error s
      | .ok _ =>
        let r := maybePut keep o ss
        (mergeLoop protocolVersion keep os (n :: ns) r.2).map (outEmit r.1)
    else if entryLt n o then
      match checkProtocolLegality n protocolVersion with
      | .error s => .error s
      | .ok _ =>
        let r := maybePut keep n ss
        (mergeLoop protocolVersion keep (o :: os) ns r.2).map (outEmit r.1)
    else
      match checkProtocolLegality o protocolVersion with
      | .error s => .error s
      | .ok _ =>
        match checkProtocolLegality n protocolVersion with
        | .error s => .error s
        | .ok _ =>
          if isInit n then
            if isDead o then
              let r := maybePut keep (.liveEntry (liveEntryOf n)) ss
              (mergeLoop protocolVersion keep os ns r.2).map (outEmit r.1)
            else
              .error ("Malformed bucket: old non-DEAD + new INIT.")
          else if isInit o then
            if isLive n then
              let r := maybePut keep (.initEntry (liveEntryOf n)) ss
              (mergeLoop protocolVersion keep os ns r.2).map (outEmit r.1)
            else
              mergeLoop protocolVersion keep os ns ss
          else
            let r := maybePut keep n ss
            (mergeLoop protocolVersion keep os ns r.2).map (outEmit r.1)
termination_by o n _ => o.length + n.length

theorem rank_of_not_meta (e : BucketEntry) (h : isMeta e = false) :
    rank e = entryKey e + 1 := by
  cases e <;> simp_all [isMeta, rank]

theorem checkProtocolLegality_of_supported (e : BucketEntry) (pv : Nat)
    (h : FIRST_PROTOCOL_SUPPORTING_INITENTRY_AND_METAENTRY ≤ pv) :
    checkProtocolLegality e pv = .ok () := by
  have : protocolVersionIsBefore pv
      FIRST_PROTOCOL_SUPPORTING_INITENTRY_AND_METAENTRY = false := by
    simp only [protocolVersionIsBefore, decide_eq_false_iff_not]
    omega
  simp [checkProtocolLegality, this]

theorem entryLt_irrefl_of_equal_keys (o n : BucketEntry)
    (hk : entryKey o = entryKey n) (hmo : isMeta o = false) (hmn : isMeta n = false) :
    entryLt o n = false ∧ entryLt n o = false := by
  rw [entryLt_eq_rank, entryLt_eq_rank, rank_of_not_meta o hmo, rank_of_not_meta n hmn, hk]
  simp

/-- Claim C1: at a merge step with equal-keyed current records, (old INIT, new
INIT) and (old LIVE, new INIT) raise a fatal error; (old DEAD, new INIT=x)
emits LIVE=x; (old INIT, new LIVE=y) emits INIT=y; (old INIT, new DEAD) emits
nothing; when neither side is INIT the new entry is emitted.  In every
non-fatal case both input cursors advance by one and any emitted entry is
routed through maybePut. -/
theorem mergeLoop_equal_keys_cases
    (pv : Nat) (keep : Bool) (o n : BucketEntry)
    (os ns : List BucketEntry) (ss : List (List BucketEntry))
    (hpv : FIRST_PROTOCOL_SUPPORTING_INITENTRY_AND_METAENTRY ≤ pv)
    (hk : entryKey o = entryKey n)
    (hmo : isMeta o = false) (hmn : isMeta n = false) :
    (isInit n = true → isDead o = false →
      mergeLoop pv keep (o :: os) (n :: ns) ss =
        .error ("Malformed bucket: old non-DEAD + new INIT.")) ∧
    (∀ x, n = .initEntry x → isDead o = true →
      mergeLoop pv keep (o :: os) (n :: ns) ss =
        (mergeLoop pv keep os ns (maybePut keep (.liveEntry x) ss).2).map
          (outEmit (maybePut keep (.liveEntry x) ss).1)) ∧
    (∀ y, isInit o = true → n = .liveEntry y →
      mergeLoop pv keep (o :: os) (n :: ns) ss =
        (mergeLoop pv keep os ns (maybePut keep (.initEntry y) ss).2).map
          (outEmit (maybePut keep (.initEntry y) ss).1)) ∧
    (isInit o = true → isDead n = true →
      mergeLoop pv keep (o :: os) (n :: ns) ss = mergeLoop pv keep os ns ss) ∧
    (isInit o = false → isInit n = false →
      mergeLoop pv keep (o :: os) (n :: ns) ss =
        (mergeLoop pv keep os ns (maybePut keep n ss).2).map
          (outEmit (maybePut keep n ss).1)) := by
  obtain ⟨hlt1, hlt2⟩ := entryLt_irrefl_of_equal_keys o n hk hmo hmn
  have hlego := checkProtocolLegality_of_supported o pv hpv
  have hlegn := checkProtocolLegality_of_supported n pv hpv
  refine ⟨?_, ?_, ?_, ?_, ?_⟩
  · intro hin hod
    simp [mergeLoop, hlt1, hlt2, hlego, hlegn, hin, hod]
  · intro x hn hod
    subst hn
    have hin : isInit (BucketEntry.initEntry x) = true := rfl
    simp [mergeLoop, hlt1, hlt2, hlego, hlegn, hin, hod, liveEntryOf]
  · intro y ho hn
    subst hn
    have hnin : isInit (BucketEntry.liveEntry y) = false := rfl
    have hnlv : isLive (BucketEntry.liveEntry y) = true := rfl
    simp [mergeLoop, hlt1, hlt2, hlego, hlegn, hnin, ho, hnlv, liveEntryOf]
  · intro ho hnd
    have hnin : isInit n = false := by cases n <;> simp_all [isInit, isDead]
    have hnlv : isLive n = false := by cases n <;> simp_all [isLive, isDead]
    simp [mergeLoop, hlt1, hlt2, hlego, hlegn, hnin, ho, hnlv]
  · intro ho hnin
    simp [mergeLoop, hlt1, hlt2, hlego, hlegn, hnin, ho]

theorem mergeLoop_equal_keys_cases_witness :
    mergeLoop 11 true
        [BucketEntry.deadEntry 5]
        [BucketEntry.initEntry { key := 5, val := 7, temp := false }] [] =
      (mergeLoop 11 true [] []
          (maybePut true (BucketEntry.liveEntry { key := 5, val := 7, temp := false }) []).2).map
        (outEmit
          (maybePut true (BucketEntry.liveEntry { key := 5, val := 7, temp := false }) []).1) :=
  (mergeLoop_equal_keys_cases 11 true (BucketEntry.deadEntry 5)
      (BucketEntry.initEntry { key := 5, val := 7, temp := false }) [] [] []
      (by decide) (by decide) (by decide) (by decide)).2.1
    { key := 5, val := 7, temp := false } rfl (by decide)

/-- A bucket at the model level: its metadata protocol version and its ordered
non-META record sequence.  Two buckets are the same canonical bucket exactly
when these coincide (the manager's hash identity digests exactly the META
record plus this sequence). -/
structure ModelBucket where
  version : Nat
  entries : List BucketEntry
deriving DecidableEq

/-- The distinguished empty bucket: no records, metadata version zero. -/
def emptyBucket : ModelBucket :=
  { version := 0, entries := [] }

/-- Bucket::merge at the model level: compute the merge protocol version and
shadow mode from the inputs, run the two-way merge loop, and assemble the
output bucket.  When keepDeadEntries is false the output iterator additionally
filters DEAD entries out of the stream. -/
def mergeBuckets (maxProtocolVersion : Nat) (oldB newB : ModelBucket)
    (shadows : List ModelBucket) (keepDeadEntries : Bool) :
    Except String ModelBucket :=
  match calculateMergeProtocolVersion maxProtocolVersion oldB.version
      newB.version (shadows.map (fun b => b.version)) with
  | .error s => .error s
  | .ok (pv, keep) =>
    match mergeLoop pv keep oldB.entries newB.entries
        (shadows.map (fun b => b.entries)) with
    | .error s => .error s
    | .ok es =>
      .ok { version := pv,
            entries := if keepDeadEntries then es
                       else es.filter (fun e => !isDead e) }

theorem maybePut_no_shadows (keep : Bool) (e : BucketEntry) :
    maybePut keep e [] = (some e, []) := by
  cases h : (keep && (isInit e || isDead e)) with
  | true => simp [maybePut, h]
  | false => simp [maybePut, h, maybePutScan]

/-- Protocol legality of an entry for a version, as the boolean condition that
checkProtocolLegality tests. -/
def entryLegal (e : BucketEntry) (pv : Nat) : Bool :=
  !(protocolVersionIsBefore pv FIRST_PROTOCOL_SUPPORTING_INITENTRY_AND_METAENTRY
      && (isInit e || isMeta e))

theorem checkProtocolLegality_of_legal (e : BucketEntry) (pv : Nat)
    (h : entryLegal e pv = true) : checkProtocolLegality e pv = .ok () := by
  simp only [entryLegal, Bool.not_eq_true'] at h
  simp [checkProtocolLegality, h]

theorem mergeLoop_no_opposite (pv : Nat) (keep : Bool) (es : List BucketEntry)
    (hleg : ∀ e ∈ es, entryLegal e pv = true) :
    mergeLoop pv keep es [] [] = .ok es ∧ mergeLoop pv keep [] es [] = .ok es := by
  induction es with
  | nil => constructor <;> simp [mergeLoop]
  | cons e rest ih =>
    have he := checkProtocolLegality_of_legal e pv (hleg e (List.mem_cons_self e rest))
    have ihx := ih (fun x hx => hleg x (List.mem_cons_of_mem e hx))
    constructor
    · simp [mergeLoop, he, maybePut_no_shadows, ihx.1, outEmit, Except.map]
    · simp [mergeLoop, he, maybePut_no_shadows, ihx.2, outEmit, Except.map]

/-- Claim C8: merging a bucket with the empty bucket under no shadows yields a
bucket with the same entry sequence, metadata version and hence the same
canonical hash identity, on both sides: M(A, empty, no shadows) = A and
M(empty, B, no shadows) = B, for a protocol-legal bucket within the protocol
ceiling. -/
theorem merge_empty_identity (maxPV : Nat) (A : ModelBucket)
    (hv : A.version ≤ maxPV)
    (hleg : ∀ e ∈ A.entries, entryLegal e A.version = true) :
    mergeBuckets maxPV A emptyBucket [] true = .ok A ∧
    mergeBuckets maxPV emptyBucket A [] true = .ok A := by
  have hcalc1 : calculateMergeProtocolVersion maxPV A.version 0 [] =
      .ok (A.version,
        !protocolVersionIsBefore A.version
          FIRST_PROTOCOL_SUPPORTING_INITENTRY_AND_METAENTRY) := by
    have hver : mergeProtocolVersionOf A.version 0 [] = A.version := by
      simp [mergeProtocolVersionOf]
    simp [calculateMergeProtocolVersion, hver, Nat.not_lt.mpr hv]
  have hcalc2 : calculateMergeProtocolVersion maxPV 0 A.version [] =
      .ok (A.version,
        !protocolVersionIsBefore A.version
          FIRST_PROTOCOL_SUPPORTING_INITENTRY_AND_METAENTRY) := by
    have hver : mergeProtocolVersionOf 0 A.version [] = A.version := by
      simp [mergeProtocolVersionOf]
    simp [calculateMergeProtocolVersion, hver, Nat.not_lt.mpr hv]
  obtain ⟨hl1, hl2⟩ :=
    mergeLoop_no_opposite A.version
      (!protocolVersionIsBefore A.version
        FIRST_PROTOCOL_SUPPORTING_INITENTRY_AND_METAENTRY)
      A.entries hleg
  constructor
  · simp [mergeBuckets, emptyBucket, hcalc1, hl1]
  · simp [mergeBuckets, emptyBucket, hcalc2, hl2]

theorem merge_empty_identity_witness :
    mergeBuckets 11
        { version := 11,
          entries := [BucketEntry.liveEntry { key := 1, val := 2, temp := false }] }
        emptyBucket [] true =
      .ok { version := 11,
            entries := [BucketEntry.liveEntry { key := 1, val := 2, temp := false }] } :=
  (merge_empty_identity 11
      { version := 11,
        entries := [BucketEntry.liveEntry { key := 1, val := 2, temp := false }] }
      (by decide)
      (by intro e he; simp only [List.mem_singleton] at he; subst he; decide)).1

/-- The combined tagged list built by Bucket::convertToBucketEntry before
sorting: initEntries tagged INIT when useInit holds and LIVE otherwise,
liveEntries tagged LIVE, deadEntries tagged DEAD. -/
def convertCombined (useInit : Bool)
    (initEntries liveEntries : List LedgerEntryM) (deadEntries : List Nat) :
    List BucketEntry :=
  initEntries.map
      (fun e => if useInit then BucketEntry.initEntry e else BucketEntry.liveEntry e)
    ++ liveEntries.map BucketEntry.liveEntry
    ++ deadEntries.map BucketEntry.deadEntry

/-- Adjacent strict ascent under the comparator: the property asserted by the
adjacent_find releaseAssert in Bucket::convertToBucketEntry. -/
def strictlyAscending : List BucketEntry → Bool
  | [] => true
  | [_] => true
  | a :: b :: rest => entryLt a b && strictlyAscending (b :: rest)

/-- Bucket::convertToBucketEntry: build the combined tagged list, sort it by
the comparator, and fail fatally when two adjacent entries are equal-keyed. -/
def convertToBucketEntry (useInit : Bool)
    (initEntries liveEntries : List LedgerEntryM) (deadEntries : List Nat) :
    Except String (List BucketEntry) :=
  let sorted := List.insertionSort (fun a b => rank a ≤ rank b)
    (convertCombined useInit initEntries liveEntries deadEntries)
  if strictlyAscending sorted then .ok sorted
  else .error ("adjacent equal-keyed entries in fresh bucket")

/-- Bucket::fresh at the record level: entries in initEntries are emitted as
INIT exactly when the protocol version is at-or-after
FIRST_PROTOCOL_SUPPORTING_INITENTRY_AND_METAENTRY; the sorted entries are
streamed through the output builder behind a META record carrying the
protocol version (fresh passes keepDeadEntries = true, so nothing is
filtered). -/
def freshBucket (protocolVersion : Nat)
    (initEntries liveEntries : List LedgerEntryM) (deadEntries : List Nat) :
    Except String (List BucketEntry) :=
  match convertToBucketEntry
      (protocolVersionStartsFrom protocolVersion
        FIRST_PROTOCOL_SUPPORTING_INITENTRY_AND_METAENTRY)
      initEntries liveEntries deadEntries with
  | .error s => .error s
  | .ok entries => .ok (BucketEntry.metaEntry protocolVersion :: entries)

/-- The tagging the specification describes for a fresh bucket at a given
protocol version. -/
def taggedEntries (protocolVersion : Nat)
    (initEntries liveEntries : List LedgerEntryM) (deadEntries : List Nat) :
    List BucketEntry :=
  initEntries.map
      (fun e =>
        if FIRST_PROTOCOL_SUPPORTING_INITENTRY_AND_METAENTRY ≤ protocolVersion then
          BucketEntry.initEntry e
        else BucketEntry.liveEntry e)
    ++ liveEntries.map BucketEntry.liveEntry
    ++ deadEntries.map BucketEntry.deadEntry

theorem convertCombined_eq_tagged (pv : Nat)
    (ie le : List LedgerEntryM) (de : List Nat) :
    convertCombined
        (protocolVersionStartsFrom pv
          FIRST_PROTOCOL_SUPPORTING_INITENTRY_AND_METAENTRY) ie le de =
      taggedEntries pv ie le de := by
  by_cases h : FIRST_PROTOCOL_SUPPORTING_INITENTRY_AND_METAENTRY ≤ pv
  · simp [convertCombined, taggedEntries, protocolVersionStartsFrom, h]
  · simp [convertCombined, taggedEntries, protocolVersionStartsFrom, h]

theorem strictlyAscending_iff_chain (l : List BucketEntry) :
    strictlyAscending l = true ↔ List.Chain' (fun a b => rank a < rank b) l := by
  induction l with
  | nil => simp [strictlyAscending]
  | cons a t ih =>
    cases t with
    | nil => simp [strictlyAscending]
    | cons b rest =>
      rw [List.chain'_cons, ← ih]
      simp [strictlyAscending, entryLt_eq_rank a b]

theorem sorted_strictlyAscending_iff_pairwise (l : List BucketEntry)
    (hs : List.Sorted (fun a b => rank a ≤ rank b) l) :
    strictlyAscending l = true ↔ l.Pairwise (fun a b => rank a ≠ rank b) := by
  rw [strictlyAscending_iff_chain]
  have : IsTrans BucketEntry (fun a b => rank a < rank b) :=
    ⟨fun _ _ _ h1 h2 => Nat.lt_trans h1 h2⟩
  rw [List.chain'_iff_pairwise]
  constructor
  · intro h
    exact h.imp (fun hab => Nat.ne_of_lt hab)
  · intro h
    exact (hs.and h).imp (fun hab => Nat.lt_of_le_of_ne hab.1 hab.2)

instance rankLeTotal : IsTotal BucketEntry (fun a b => rank a ≤ rank b) :=
  ⟨fun a b => Nat.le_total (rank a) (rank b)⟩

instance rankLeTrans : IsTrans BucketEntry (fun a b => rank a ≤ rank b) :=
  ⟨fun _ _ _ h1 h2 => Nat.le_trans h1 h2⟩

/-- Claim C4: a fresh bucket tags initEntries INIT exactly when the protocol
version is at-or-after FIRST_PROTOCOL_SUPPORTING_INITENTRY_AND_METAENTRY (and
LIVE otherwise), liveEntries LIVE and deadEntries DEAD; on success the output
is a META record carrying the protocol version followed by a strictly
ascending permutation of the combined tagged list; two adjacent equal-keyed
entries after sorting are a fatal condition, which happens exactly when the
combined tagged list has two entries of equal rank. -/
theorem freshBucket_spec (pv : Nat) (ie le : List LedgerEntryM) (de : List Nat) :
    (∀ es, freshBucket pv ie le de = .ok es →
      ∃ t, es = BucketEntry.metaEntry pv :: t ∧
        strictlyAscending t = true ∧
        List.Perm t (taggedEntries pv ie le de)) ∧
    (freshBucket pv ie le de =
        .error ("adjacent equal-keyed entries in fresh bucket") ↔
      ¬ (taggedEntries pv ie le de).Pairwise (fun a b => rank a ≠ rank b)) := by
  have hcomb := convertCombined_eq_tagged pv ie le de
  have hperm : List.Perm
      (List.insertionSort (fun a b => rank a ≤ rank b)
        (taggedEntries pv ie le de))
      (taggedEntries pv ie le de) :=
    List.perm_insertionSort _ _
  have hsorted : List.Sorted (fun a b => rank a ≤ rank b)
      (List.insertionSort (fun a b => rank a ≤ rank b)
        (taggedEntries pv ie le de)) :=
    List.sorted_insertionSort _ _
  have hpair : strictlyAscending
      (List.insertionSort (fun a b => rank a ≤ rank b)
        (taggedEntries pv ie le de)) = true ↔
      (taggedEntries pv ie le de).Pairwise (fun a b => rank a ≠ rank b) := by
    rw [sorted_strictlyAscending_iff_pairwise _ hsorted]
    exact hperm.pairwise_iff (fun h => Ne.symm h)
  constructor
  · intro es hok
    unfold freshBucket convertToBucketEntry at hok
    rw [hcomb] at hok
    cases hasc : strictlyAscending
        (List.insertionSort (fun a b => rank a ≤ rank b)
          (taggedEntries pv ie le de)) with
    | true =>
      rw [if_pos hasc] at hok
      cases hok
      exact ⟨_, rfl, hasc, hperm⟩
    | false =>
      rw [if_neg (by simp [hasc])] at hok
      cases hok
  · unfold freshBucket convertToBucketEntry
    rw [hcomb]
    cases hasc : strictlyAscending
        (List.insertionSort (fun a b => rank a ≤ rank b)
          (taggedEntries pv ie le de)) with
    | true =>
      rw [if_pos hasc]
      simp only [reduceCtorEq, false_iff, not_not]
      exact hpair.mp hasc
    | false =>
      rw [if_neg (by simp [hasc])]
      simp only [Except.error.injEq, true_iff]
      intro hc
      rw [← hpair] at hc
      rw [hc] at hasc
      cases hasc

/-- Key equality between a record and a probe ledger key under the comparator:
a META record is never key-equal to a ledger key. -/
def keyEq (be : BucketEntry) (k : Nat) : Bool :=
  match be with
  | .metaEntry _ => false
  | _ => decide (entryKey be = k)

/-- XDRInputFileStream::readPage as consumed by getEntryAtOffset: the page of
records at the offset, scanned for a record key-equal to the probe. -/
def readPage (file : List BucketEntry) (pos pageSize k : Nat) :
    Option BucketEntry :=
  ((file.drop pos).take pageSize).find? (fun be => keyEq be k)

/-- Bucket::getEntryAtOffset: at page size zero read one record at the offset
and return it; otherwise scan the page at the offset for a key-equal record;
whenever nothing is returned, mark a bloom miss on the index.  The boolean in
the result records whether markBloomMiss was called. -/
def getEntryAtOffset (file : List BucketEntry) (k pos pageSize : Nat) :
    Option BucketEntry × Bool :=
  if pageSize = 0 then
    match file[pos]? with
    | some be => (some be, false)
    | none => (none, true)
  else
    match readPage file pos pageSize k with
    | some be => (some be, false)
    | none => (none, true)

/-- Bucket::getBucketEntry: ask the index for the key's offset; an absent
offset is a miss with no bloom-miss mark; otherwise defer to getEntryAtOffset
with the index page size. -/
def getBucketEntry (file : List BucketEntry) (lookupRes : Option Nat)
    (pageSize k : Nat) : Option BucketEntry × Bool :=
  match lookupRes with
  | some pos => getEntryAtOffset file k pos pageSize
  | none => (none, false)

/-- Claim C6: a point lookup returns none without marking a bloom miss when
the index yields no offset; with an offset and page size zero it reads and
returns the one record at that offset; with a non-zero page size it returns
the key-equal record of the page when one exists and otherwise marks a bloom
miss and returns none; markBloomMiss is called only in that last case.  The
hypothesis states that offsets yielded by the index lie inside the file. -/
theorem getBucketEntry_spec (file : List BucketEntry) (lookupRes : Option Nat)
    (pageSize k : Nat)
    (hvalid : ∀ pos, lookupRes = some pos → pos < file.length) :
    (lookupRes = none → getBucketEntry file lookupRes pageSize k = (none, false)) ∧
    (∀ pos, lookupRes = some pos → pageSize = 0 →
      ∃ be, file[pos]? = some be ∧
        getBucketEntry file lookupRes pageSize k = (some be, false)) ∧
    (∀ pos, lookupRes = some pos → pageSize ≠ 0 →
      getBucketEntry file lookupRes pageSize k =
        (match readPage file pos pageSize k with
         | some be => (some be, false)
         | none => (none, true))) ∧
    ((getBucketEntry file lookupRes pageSize k).2 = true →
      ∃ pos, lookupRes = some pos ∧ pageSize ≠ 0 ∧
        readPage file pos pageSize k = none) := by
  refine ⟨?_, ?_, ?_, ?_⟩
  · intro h
    subst h
    rfl
  · intro pos hpos hps
    subst hpos
    subst hps
    obtain ⟨be, hbe⟩ : ∃ be, file[pos]? = some be := by
      have := hvalid pos rfl
      exact ⟨file[pos], List.getElem?_eq_getElem this⟩
    exact ⟨be, hbe, by simp [getBucketEntry, getEntryAtOffset, hbe]⟩
  · intro pos hpos hps
    subst hpos
    simp [getBucketEntry, getEntryAtOffset, hps]
  · intro hmiss
    cases hl : lookupRes with
    | none =>
      subst hl
      cases hmiss
    | some pos =>
      subst hl
      refine ⟨pos, rfl, ?_⟩
      by_cases hps : pageSize = 0
      · exfalso
        obtain ⟨be, hbe⟩ : ∃ be, file[pos]? = some be := by
          have := hvalid pos rfl
          exact ⟨file[pos], List.getElem?_eq_getElem this⟩
        subst hps
        simp [getBucketEntry, getEntryAtOffset, hbe] at hmiss
      · refine ⟨hps, ?_⟩
        cases hrp : readPage file pos pageSize k with
        | none => rfl
        | some be =>
          exfalso
          simp [getBucketEntry, getEntryAtOffset, hps, hrp] at hmiss

theorem getBucketEntry_spec_witness :
    getBucketEntry [BucketEntry.liveEntry { key := 1, val := 2, temp := false }]
        (some 0) 4 1 =
      (match readPage [BucketEntry.liveEntry { key := 1, val := 2, temp := false }]
          0 4 1 with
       | some be => (some be, false)
       | none => (none, true)) :=
  (getBucketEntry_spec
      [BucketEntry.liveEntry { key := 1, val := 2, temp := false }]
      (some 0) 4 1
      (by intro pos hpos; cases hpos; decide)).2.2.1 0 rfl (by decide)

/-- A ledger-transaction key: either a primary ledger key or the TTL key
derived from it by getTTLKey. -/
inductive LKey where
  | primary : Nat → LKey
  | ttl : Nat → LKey
deriving DecidableEq

/-- AbstractLedgerTxn::loadWithoutRecord on the model state: association-list
lookup.  The stored number at a TTL key is its liveUntilLedgerSeq. -/
def ltxLoad (k : LKey) : List (LKey × Nat) → Option Nat
  | [] => none
  | p :: rest => if p.1 = k then some p.2 else ltxLoad k rest

/-- AbstractLedgerTxn::erase on the model state. -/
def ltxErase (k : LKey) (l : List (LKey × Nat)) : List (LKey × Nat) :=
  l.filter (fun p => !decide (p.1 = k))

/-- The mutable collaborator state threaded through scanForEviction: the
ledger-transaction contents, the entriesEvictedCounter, and the optional
per-run metrics (numEntriesEvicted, evictedEntriesAgeSum). -/
structure EvictionScanState where
  ltx : List (LKey × Nat)
  evicted : Nat
  metrics : Option (Nat × Nat)
deriving DecidableEq

/-- isLive for a TTL entry at a ledger sequence.  Modelled from the spec: the
TTL entry is live at ledgerSeq iff its liveUntilLedgerSeq is at least
ledgerSeq (declared in LedgerTypeUtils, outside src). -/
def ttlIsLive (liveUntilLedger ledgerSeq : Nat) : Bool :=
  decide (ledgerSeq ≤ liveUntilLedger)

/-- The temporary-entry branch of the scanForEviction loop body: load the
primary and TTL entries from the ledger transaction; an absent primary skips
the record and its TTL must be absent too (releaseAssert); with both present,
an expired TTL erases both keys, increments the eviction counter and metrics,
and decrements remainingEntriesToEvict. -/
def processTempEntry (ledgerSeq : Nat) (le : LedgerEntryM)
    (st : EvictionScanState) (remainingEntriesToEvict : Nat) :
    Except String (EvictionScanState × Nat) :=
  if le.temp then
    match ltxLoad (.primary le.key) st.ltx, ltxLoad (.ttl le.key) st.ltx with
    | none, none => .ok (st, remainingEntriesToEvict)
    | none, some _ =>
      .error ("releaseAssert failed: TTL entry present for deleted entry")
    | some _, none => .error ("releaseAssert failed: TTL entry missing")
    | some _, some liveUntilLedger =>
      if ttlIsLive liveUntilLedger ledgerSeq then
        .ok (st, remainingEntriesToEvict)
      else
        .ok ({ ltx := ltxErase (.primary le.key) (ltxErase (.ttl le.key) st.ltx),
               evicted := st.evicted + 1,
               metrics := st.metrics.map
                 (fun m => (m.1 + 1, m.2 + (ledgerSeq - liveUntilLedger))) },
             remainingEntriesToEvict - 1)
  else
    .ok (st, remainingEntriesToEvict)

/-- The per-record body of the scanForEviction loop: only LIVE and INIT
records with temporary payloads can touch the ledger transaction. -/
def processRecord (ledgerSeq : Nat) (be : BucketEntry) (st : EvictionScanState)
    (remainingEntriesToEvict : Nat) : Except String (EvictionScanState × Nat) :=
  match be with
  | .initEntry le => processTempEntry ledgerSeq le st remainingEntriesToEvict
  | .liveEntry le => processTempEntry ledgerSeq le st remainingEntriesToEvict
  | _ => .ok (st, remainingEntriesToEvict)

/-- The record-reading loop of Bucket::scanForEviction over the records (each
paired with its serialized byte count) from the iterator offset onward:
process each record, advance the offset, account the bytes; when a record's
bytes meet or exceed the remaining byte budget set the budget to exactly zero
and report true; when the eviction quota is exhausted report true without
touching the byte budget; otherwise subtract the bytes and continue; at end
of file report false. -/
def scanForEvictionLoop (ledgerSeq : Nat) :
    List (BucketEntry × Nat) → EvictionScanState → Nat → Nat → Nat →
    Except String (Bool × EvictionScanState × Nat × Nat × Nat)
  | [], st, bytesToScan, remaining, offset =>
    .ok (false, st, bytesToScan, remaining, offset)
  | (be, sz) :: rest, st, bytesToScan, remaining, offset =>
    match processRecord ledgerSeq be st remaining with
    | .error s => .error s
    | .ok (st2, remaining2) =>
      if sz ≥ bytesToScan then
        .ok (true, st2, 0, remaining2, offset + sz)
      else if remaining2 = 0 then
        .ok (true, st2, bytesToScan, remaining2, offset + sz)
      else
        scanForEvictionLoop ledgerSeq rest st2 (bytesToScan - sz) remaining2
          (offset + sz)

/-- The modulus of the 32-bit unsigned bytesToScan counter. -/
def U32MOD : Nat := 2 ^ 32

/-- The same loop with the uint32 budget subtraction performed in 32-bit
modular arithmetic, exactly as the machine executes bytesToScan -= bytesRead. -/
def scanForEvictionLoopU32 (ledgerSeq : Nat) :
    List (BucketEntry × Nat) → EvictionScanState → Nat → Nat → Nat →
    Except String (Bool × EvictionScanState × Nat × Nat × Nat)
  | [], st, bytesToScan, remaining, offset =>
    .ok (false, st, bytesToScan, remaining, offset)
  | (be, sz) :: rest, st, bytesToScan, remaining, offset =>
    match processRecord ledgerSeq be st remaining with
    | .error s => .error s
    | .ok (st2, remaining2) =>
      if sz ≥ bytesToScan then
        .ok (true, st2, 0, remaining2, offset + sz)
      else if remaining2 = 0 then
        .ok (true, st2, bytesToScan, remaining2, offset + sz)
      else
        scanForEvictionLoopU32 ledgerSeq rest st2
          ((bytesToScan + (U32MOD - sz % U32MOD)) % U32MOD) remaining2
          (offset + sz)

/-- Bucket::scanForEviction: an empty bucket or one older than
SOROBAN_PROTOCOL_VERSION reports EOF; an already exhausted budget reports
true; otherwise run the loop from the iterator offset. -/
def scanForEviction (bucketIsEmpty : Bool) (bucketVersion ledgerSeq : Nat)
    (recs : List (BucketEntry × Nat)) (st : EvictionScanState)
    (bytesToScan remainingEntriesToEvict offset : Nat) :
    Except String (Bool × EvictionScanState × Nat × Nat × Nat) :=
  if bucketIsEmpty
      || protocolVersionIsBefore bucketVersion SOROBAN_PROTOCOL_VERSION then
    .ok (false, st, bytesToScan, remainingEntriesToEvict, offset)
  else if remainingEntriesToEvict = 0 || bytesToScan = 0 then
    .ok (true, st, bytesToScan, remainingEntriesToEvict, offset)
  else
    scanForEvictionLoop ledgerSeq recs st bytesToScan remainingEntriesToEvict
      offset

/-- Claim C9: the unsigned byte budget never wraps below zero: running the
loop in 32-bit modular arithmetic agrees with the exact natural-number loop
whenever the budget and the record sizes are 32-bit values (the subtraction is
guarded to happen only when the bytes read are strictly below the budget), and
when a record's consumed bytes meet or exceed the remaining budget the budget
is set to exactly zero and the loop returns true. -/
theorem scanForEviction_budget_no_wrap (ledgerSeq : Nat) :
    (∀ recs st bytesToScan remaining offset,
      bytesToScan < U32MOD → (∀ p ∈ recs, p.2 < U32MOD) →
      scanForEvictionLoopU32 ledgerSeq recs st bytesToScan remaining offset =
        scanForEvictionLoop ledgerSeq recs st bytesToScan remaining offset) ∧
    (∀ be sz rest st bytesToScan remaining offset st2 remaining2,
      processRecord ledgerSeq be st remaining = .ok (st2, remaining2) →
      bytesToScan ≤ sz →
      scanForEvictionLoop ledgerSeq ((be, sz) :: rest) st bytesToScan remaining
          offset =
        .ok (true, st2, 0, remaining2, offset + sz)) := by
  constructor
  · intro recs
    induction recs with
    | nil => intro st b remaining offset hb hsz; rfl
    | cons p rest ih =>
      intro st b remaining offset hb hsz
      obtain ⟨be, sz⟩ := p
      have hszlt : sz < U32MOD := hsz (be, sz) (List.mem_cons_self _ _)
      simp only [scanForEvictionLoopU32, scanForEvictionLoop]
      cases hpr : processRecord ledgerSeq be st remaining with
      | error s => rfl
      | ok r =>
        obtain ⟨st2, remaining2⟩ := r
        dsimp only
        by_cases hge : sz ≥ b
        · rw [if_pos hge, if_pos hge]
        · rw [if_neg hge, if_neg hge]
          by_cases hr0 : remaining2 = 0
          · rw [if_pos hr0, if_pos hr0]
          · rw [if_neg hr0, if_neg hr0]
            have hmod : (b + (U32MOD - sz % U32MOD)) % U32MOD = b - sz := by
              simp only [U32MOD] at hb hszlt ⊢
              omega
            rw [hmod]
            exact ih st2 (b - sz) remaining2 (offset + sz) (by omega)
              (fun q hq => hsz q (List.mem_cons_of_mem _ hq))
  · intro be sz rest st b remaining offset st2 remaining2 hpr hle
    simp only [scanForEvictionLoop, hpr]
    rw [if_pos (by omega)]

theorem scanForEviction_budget_no_wrap_witness :
    scanForEvictionLoop 7
        [(BucketEntry.deadEntry 1, 100)]
        { ltx := [], evicted := 0, metrics := none } 60 5 0 =
      .ok (true, { ltx := [], evicted := 0, metrics := none }, 0, 5, 100) :=
  (scanForEviction_budget_no_wrap 7).2
    (BucketEntry.deadEntry 1) 100 []
    { ltx := [], evicted := 0, metrics := none } 60 5 0
    { ltx := [], evicted := 0, metrics := none } 5 rfl (by decide)

/-- Claim C7: a LIVE or INIT record with a temporary payload whose primary
entry is present and whose TTL entry has liveUntilLedgerSeq strictly below
ledgerSeq has both its TTL key and primary key erased from the ledger
transaction, the eviction counter incremented and remainingEntriesToEvict
decremented by one; an absent primary (with its TTL necessarily absent) skips
the record; non-temporary payloads, DEAD and META records cause no
ledger-transaction mutation but still consume the byte budget in the scan
loop. -/
theorem scanForEviction_record_spec (ledgerSeq : Nat) (le : LedgerEntryM)
    (st : EvictionScanState) (remaining : Nat) :
    (∀ v liveUntilLedger, le.temp = true →
      ltxLoad (.primary le.key) st.ltx = some v →
      ltxLoad (.ttl le.key) st.ltx = some liveUntilLedger →
      liveUntilLedger < ledgerSeq →
      processRecord ledgerSeq (.liveEntry le) st remaining =
          .ok ({ ltx := ltxErase (.primary le.key) (ltxErase (.ttl le.key) st.ltx),
                 evicted := st.evicted + 1,
                 metrics := st.metrics.map
                   (fun m => (m.1 + 1, m.2 + (ledgerSeq - liveUntilLedger))) },
               remaining - 1) ∧
        processRecord ledgerSeq (.initEntry le) st remaining =
          .ok ({ ltx := ltxErase (.primary le.key) (ltxErase (.ttl le.key) st.ltx),
                 evicted := st.evicted + 1,
                 metrics := st.metrics.map
                   (fun m => (m.1 + 1, m.2 + (ledgerSeq - liveUntilLedger))) },
               remaining - 1)) ∧
    (le.temp = true →
      ltxLoad (.primary le.key) st.ltx = none →
      ltxLoad (.ttl le.key) st.ltx = none →
      processRecord ledgerSeq (.liveEntry le) st remaining = .ok (st, remaining) ∧
      processRecord ledgerSeq (.initEntry le) st remaining = .ok (st, remaining)) ∧
    (le.temp = false →
      processRecord ledgerSeq (.liveEntry le) st remaining = .ok (st, remaining) ∧
      processRecord ledgerSeq (.initEntry le) st remaining = .ok (st, remaining)) ∧
    (∀ k v, processRecord ledgerSeq (.deadEntry k) st remaining = .ok (st, remaining) ∧
      processRecord ledgerSeq (.metaEntry v) st remaining = .ok (st, remaining)) ∧
    (∀ k sz rest bytesToScan offset, sz < bytesToScan → remaining ≠ 0 →
      scanForEvictionLoop ledgerSeq ((BucketEntry.deadEntry k, sz) :: rest) st
          bytesToScan remaining offset =
        scanForEvictionLoop ledgerSeq rest st (bytesToScan - sz) remaining
          (offset + sz)) := by
  refine ⟨?_, ?_, ?_, ?_, ?_⟩
  · intro v liveUntilLedger htemp hp ht hexp
    have hlive : ttlIsLive liveUntilLedger ledgerSeq = false := by
      simp only [ttlIsLive, decide_eq_false_iff_not]
      omega
    constructor <;>
      simp [processRecord, processTempEntry, htemp, hp, ht, hlive]
  · intro htemp hp ht
    constructor <;> simp [processRecord, processTempEntry, htemp, hp, ht]
  · intro htemp
    constructor <;> simp [processRecord, processTempEntry, htemp]
  · intro k v
    constructor <;> rfl
  · intro k sz rest bytesToScan offset hsz hr
    simp only [scanForEvictionLoop, processRecord]
    rw [if_neg (by omega), if_neg hr]

theorem scanForEviction_record_spec_witness :
    processRecord 11 (BucketEntry.liveEntry { key := 5, val := 0, temp := true })
        { ltx := [(LKey.primary 5, 0), (LKey.ttl 5, 10)], evicted := 0,
          metrics := some (0, 0) } 3 =
      .ok ({ ltx := ltxErase (.primary 5)
               (ltxErase (.ttl 5) [(LKey.primary 5, 0), (LKey.ttl 5, 10)]),
             evicted := 1,
             metrics := (some (0, 0)).map (fun m => (m.1 + 1, m.2 + (11 - 10))) },
           2) :=
  ((scanForEviction_record_spec 11 { key := 5, val := 0, temp := true }
      { ltx := [(LKey.primary 5, 0), (LKey.ttl 5, 10)], evicted := 0,
        metrics := some (0, 0) } 3).1
    0 10 rfl (by decide) (by decide) (by decide)).1

/-- One scan(indexCursor, key) step of the BucketIndex.  Modelled from the
spec: the index is an external sorted structure; scan advances the cursor
monotonically past records with keys strictly below the wanted key and yields
an offset when the cursor then sits on the wanted key.  An index record
carries the result of fetching the record at its offset; none models a bloom
false positive whose page read then misses. -/
def scanStep (k : Nat) (idx : List (Nat × Option BucketEntry)) :
    Option (Option BucketEntry) × List (Nat × Option BucketEntry) :=
  match idx.dropWhile (fun p => decide (p.1 < k)) with
  | [] => (none, [])
  | p :: rest => (if p.1 = k then some p.2 else none, p :: rest)

/-- Bucket::loadKeys: walk the sorted wanted keys and the index cursor in
tandem; a found key (offset yielded and record fetched) is removed from the
wanted set and its payload is appended to the results exactly when the record
is not DEAD; otherwise the key stays in place for older levels.  Returns the
remaining wanted keys and the accumulated results. -/
def loadKeysLoop : List Nat → List (Nat × Option BucketEntry) →
    List Nat × List LedgerEntryM
  | [], _ => ([], [])
  | k :: ks, [] => (k :: ks, [])
  | k :: ks, p :: idx =>
    match scanStep k (p :: idx) with
    | (some (some be), idx2) =>
      let r := loadKeysLoop ks idx2
      (r.1, if isDead be then r.2 else liveEntryOf be :: r.2)
    | (some none, idx2) =>
      let r := loadKeysLoop ks idx2
      (k :: r.1, r.2)
    | (none, idx2) =>
      let r := loadKeysLoop ks idx2
      (k :: r.1, r.2)

/-- Association lookup of a wanted key in the index. -/
def idxLookup (k : Nat) : List (Nat × Option BucketEntry) →
    Option (Option BucketEntry)
  | [] => none
  | p :: rest => if p.1 = k then some p.2 else idxLookup k rest

/-- Whether loadKeys leaves a wanted key in the wanted set: only a found key
whose record was fetched is removed, DEAD or not. -/
def loadKeysKept (idx : List (Nat × Option BucketEntry)) (k : Nat) : Bool :=
  match idxLookup k idx with
  | some (some _) => false
  | _ => true

/-- The payload loadKeys pushes for a wanted key: the fetched record's
payload exactly when that record is not DEAD. -/
def loadKeysOut (idx : List (Nat × Option BucketEntry)) (k : Nat) :
    Option LedgerEntryM :=
  match idxLookup k idx with
  | some (some be) => if isDead be then none else some (liveEntryOf be)
  | _ => none

theorem idxLookup_eq_none (k : Nat) (idx : List (Nat × Option BucketEntry))
    (h : ∀ p ∈ idx, p.1 ≠ k) : idxLookup k idx = none := by
  induction idx with
  | nil => rfl
  | cons p rest ih =>
    simp only [idxLookup]
    rw [if_neg (h p (List.mem_cons_self _ _))]
    exact ih (fun q hq => h q (List.mem_cons_of_mem _ hq))

theorem scanStep_eq (k : Nat) (idx : List (Nat × Option BucketEntry))
    (hidx : List.Pairwise (fun a b => a < b) (idx.map Prod.fst)) :
    scanStep k idx =
      (idxLookup k idx, idx.dropWhile (fun p => decide (p.1 < k))) := by
  induction idx with
  | nil => rfl
  | cons p rest ih =>
    simp only [List.map_cons, List.pairwise_cons] at hidx
    by_cases hp : p.1 < k
    · have hdw : (p :: rest).dropWhile (fun q => decide (q.1 < k)) =
          rest.dropWhile (fun q => decide (q.1 < k)) := by
        simp [List.dropWhile_cons, hp]
      have hlk : idxLookup k (p :: rest) = idxLookup k rest := by
        simp only [idxLookup]
        rw [if_neg (by omega)]
      have hss : scanStep k (p :: rest) = scanStep k rest := by
        simp only [scanStep, hdw]
      rw [hss, ih hidx.2, hlk, hdw]
    · have hdw : (p :: rest).dropWhile (fun q => decide (q.1 < k)) = p :: rest := by
        simp [List.dropWhile_cons, hp]
      simp only [scanStep, hdw]
      by_cases hpk : p.1 = k
      · simp only [idxLookup]
        rw [if_pos hpk, if_pos hpk]
      · have hrest : idxLookup k rest = none := by
          apply idxLookup_eq_none
          intro q hq
          have : p.1 < q.1 := hidx.1 q.1 (List.mem_map_of_mem Prod.fst hq)
          omega
        simp only [idxLookup]
        rw [if_neg hpk, if_neg hpk, hrest]

theorem idxLookup_dropWhile (k kp : Nat) (idx : List (Nat × Option BucketEntry))
    (h : kp < k) :
    idxLookup k (idx.dropWhile (fun p => decide (p.1 < kp))) = idxLookup k idx := by
  induction idx with
  | nil => rfl
  | cons p rest ih =>
    by_cases hp : p.1 < kp
    · have hdw : (p :: rest).dropWhile (fun q => decide (q.1 < kp)) =
          rest.dropWhile (fun q => decide (q.1 < kp)) := by
        simp [List.dropWhile_cons, hp]
      rw [hdw, ih]
      simp only [idxLookup]
      rw [if_neg (by omega)]
    · have hdw : (p :: rest).dropWhile (fun q => decide (q.1 < kp)) = p :: rest := by
        simp [List.dropWhile_cons, hp]
      rw [hdw]

/-- Claim C5: loadKeys over a sorted wanted-key set and a sorted index walks
the two cursors in tandem and computes exactly: the remaining wanted keys are
those whose lookup yields no fetched record (a found key is removed whether
its record is DEAD or not), and the results are the payloads of the found
non-DEAD records in key order. -/
theorem loadKeys_spec (ks : List Nat) (idx : List (Nat × Option BucketEntry))
    (hks : List.Pairwise (fun a b => a < b) ks)
    (hidx : List.Pairwise (fun a b => a < b) (idx.map Prod.fst)) :
    loadKeysLoop ks idx =
      (ks.filter (loadKeysKept idx), ks.filterMap (loadKeysOut idx)) := by
  induction ks generalizing idx with
  | nil => simp [loadKeysLoop]
  | cons k ks ih =>
    obtain ⟨hk1, hks2⟩ := List.pairwise_cons.mp hks
    cases idx with
    | nil =>
      have h1 : (k :: ks).filter (loadKeysKept []) = k :: ks :=
        List.filter_eq_self.mpr (fun a _ => rfl)
      have h2 : (k :: ks).filterMap (loadKeysOut []) = [] := by
        induction ks <;> simp_all [List.filterMap_cons, loadKeysOut, idxLookup]
      rw [loadKeysLoop, h1, h2]
    | cons p rest =>
      have hstep := scanStep_eq k (p :: rest) hidx
      have hsub : List.Sublist
          ((p :: rest).dropWhile (fun q => decide (q.1 < k))) (p :: rest) :=
        List.dropWhile_sublist _
      have hidx2 : List.Pairwise (fun a b => a < b)
          (((p :: rest).dropWhile (fun q => decide (q.1 < k))).map Prod.fst) :=
        List.Pairwise.sublist (hsub.map Prod.fst) hidx
      have hpres : ∀ a ∈ ks,
          idxLookup a ((p :: rest).dropWhile (fun q => decide (q.1 < k))) =
            idxLookup a (p :: rest) :=
        fun a ha => idxLookup_dropWhile a k (p :: rest) (hk1 a ha)
      have ihx := ih ((p :: rest).dropWhile (fun q => decide (q.1 < k))) hks2 hidx2
      have hfiltereq :
          ks.filter (loadKeysKept ((p :: rest).dropWhile (fun q => decide (q.1 < k)))) =
            ks.filter (loadKeysKept (p :: rest)) :=
        List.filter_congr
          (fun a ha => by simp only [loadKeysKept, hpres a ha])
      have hmapeq :
          ks.filterMap (loadKeysOut ((p :: rest).dropWhile (fun q => decide (q.1 < k)))) =
            ks.filterMap (loadKeysOut (p :: rest)) :=
        List.filterMap_congr
          (fun a ha => by simp only [loadKeysOut, hpres a ha])
      rw [loadKeysLoop, hstep]
      cases hfound : idxLookup k (p :: rest) with
      | none =>
        have hkept : loadKeysKept (p :: rest) k = true := by
          simp [loadKeysKept, hfound]
        have hout : loadKeysOut (p :: rest) k = none := by
          simp [loadKeysOut, hfound]
        dsimp only
        rw [ihx, hfiltereq, hmapeq, List.filter_cons, List.filterMap_cons, hkept, hout]
        rfl
      | some ofetch =>
        cases ofetch with
        | none =>
          have hkept : loadKeysKept (p :: rest) k = true := by
            simp [loadKeysKept, hfound]
          have hout : loadKeysOut (p :: rest) k = none := by
            simp [loadKeysOut, hfound]
          dsimp only
          rw [ihx, hfiltereq, hmapeq, List.filter_cons, List.filterMap_cons, hkept, hout]
          rfl
        | some be =>
          have hkept : loadKeysKept (p :: rest) k = false := by
            simp [loadKeysKept, hfound]
          have hout : loadKeysOut (p :: rest) k =
              (if isDead be then none else some (liveEntryOf be)) := by
            simp [loadKeysOut, hfound]
          dsimp only
          rw [ihx, hfiltereq, hmapeq, List.filter_cons, List.filterMap_cons, hkept, hout]
          cases hdead : isDead be with
          | true => simp
          | false => simp

theorem loadKeys_spec_witness :
    loadKeysLoop [1, 2, 3]
        [(1, some (BucketEntry.deadEntry 1)),
         (3, some (BucketEntry.liveEntry { key := 3, val := 30, temp := false }))] =
      ([1, 2, 3].filter
        (loadKeysKept
          [(1, some (BucketEntry.deadEntry 1)),
           (3, some (BucketEntry.liveEntry { key := 3, val := 30, temp := false }))]),
       [1, 2, 3].filterMap
        (loadKeysOut
          [(1, some (BucketEntry.deadEntry 1)),
           (3, some (BucketEntry.liveEntry { key := 3, val := 30, temp := false }))])) :=
  loadKeys_spec [1, 2, 3]
    [(1, some (BucketEntry.deadEntry 1)),
     (3, some (BucketEntry.liveEntry { key := 3, val := 30, temp := false }))]
    (by decide) (by decide)

theorem freshBucket_spec_witness :
    ∃ t, ([BucketEntry.metaEntry 11,
            BucketEntry.initEntry { key := 1, val := 5, temp := false },
            BucketEntry.deadEntry 2] : List BucketEntry) =
        BucketEntry.metaEntry 11 :: t ∧
      strictlyAscending t = true ∧
      List.Perm t
        (taggedEntries 11 [{ key := 1, val := 5, temp := false }] [] [2]) :=
  (freshBucket_spec 11 [{ key := 1, val := 5, temp := false }] [] [2]).1
    [BucketEntry.metaEntry 11,
     BucketEntry.initEntry { key := 1, val := 5, temp := false },
     BucketEntry.deadEntry 2] (by rfl)
